import Mathlib

/-!
Shallow embedding of src/cpp/src/policy.cc, the decision core of a
multi-level feedback-queue CPU/IO scheduler.

Modelling conventions:
* C++ `double` scores are modelled as exact rationals. The three score
  branches use the constants 0.4 (= 2/5), 1.0 and 1e5, all exactly
  representable; the ordering facts proved below are about the exact
  values the source computes on.
* The C++ loop initialises `minScore` with DBL_MAX, so the first task of
  the level always replaces it (every score of an int-deadline task is
  far below DBL_MAX). This is modelled by an `Option Task` accumulator
  whose `none` case is always replaced by the first task.
* The two global queue arrays `g_cpuTaskQueues` / `g_ioTaskQueues` and the
  global clock `g_currentTime` are gathered in an explicit state record
  `SchedState`; the `policy` entry point returns the `Action` together with
  the updated state.
* `std::vector` erase/remove_if with the predicate `taskId == id` keeps
  exactly the elements whose id differs, in order: `List.filter`.
-/

namespace Schedlab

/-- Task priority, fixed at creation (enum from policy.h as used by the code). -/
inductive Priority where
  | kHigh
  | kLow
deriving DecidableEq

/-- Task status: `kIoEnd` marks a task that just finished IO (the spec calls
this JustFinishedIO); everything else is modelled as `kNormal`. -/
inductive Status where
  | kNormal
  | kIoEnd
deriving DecidableEq

/-- A schedulable task (Event::Task in the source). -/
structure Task where
  taskId : Int
  priority : Priority
  deadline : Int
  status : Status
deriving DecidableEq

/-- Event kinds handled by the policy switch. -/
inductive EventType where
  | kTaskArrival
  | kIoRequest
  | kIoEnd
  | kTaskFinish
  | kTimer
deriving DecidableEq

/-- An input event: timestamp, kind, and a snapshot of the task it concerns. -/
structure Event where
  time : Int
  type : EventType
  task : Task
deriving DecidableEq

/-- The decision returned to the caller. -/
structure Action where
  cpuTask : Int
  ioTask : Int
deriving DecidableEq

/-- NUM_PRIORITY_QUEUES in the source. -/
def NUM_PRIORITY_QUEUES : Nat := 4

/-- IO_END_PRIORITY_BOOST_FACTOR = 0.4 in the source. -/
def IO_END_PRIORITY_BOOST_FACTOR : ℚ := 2 / 5

/-- REGULAR_TASK_PRIORITY_FACTOR = 1.0 in the source. -/
def REGULAR_TASK_PRIORITY_FACTOR : ℚ := 1

/-- OVERDUE_PENALTY_SCORE = 1e5 in the source. -/
def OVERDUE_PENALTY_SCORE : ℚ := 100000

/-- IDLE_TASK_ID = 0 in the source. -/
def IDLE_TASK_ID : Int := 0

/-- One leveled queue array: four vectors of tasks. -/
abbrev Queues := Fin 4 → List Task

/-- removeTaskFromQueues: erase every entry with the given id from all four
levels (erase/remove_if in the source). -/
def removeTaskFromQueues (queues : Queues) (taskId : Int) : Queues :=
  fun i => (queues i).filter (fun t => decide (t.taskId ≠ taskId))

/-- The per-task score computed inside the selection loop of
selectAndMigrateTask (lines 50-64 of policy.cc). -/
def score (task : Task) (currentTime : Int) : ℚ :=
  if currentTime < task.deadline then
    if task.status = Status.kIoEnd then
      IO_END_PRIORITY_BOOST_FACTOR * ((task.deadline : ℚ) - (currentTime : ℚ))
    else
      REGULAR_TASK_PRIORITY_FACTOR * ((task.deadline : ℚ) - (currentTime : ℚ))
  else
    OVERDUE_PENALTY_SCORE + ((task.deadline : ℚ) - (currentTime : ℚ))

/-- The selection loop of selectAndMigrateTask: scan the level in order,
keeping the task of strictly minimal score (`score < minScore`), so the
first-encountered task wins ties. The accumulator is the running
`selectedTask`; `none` plays the role of the DBL_MAX initialisation. -/
def selectFrom (currentTime : Int) : List Task → Option Task → Option Task
  | [], selectedTask => selectedTask
  | task :: rest, selectedTask =>
    match selectedTask with
    | none => selectFrom currentTime rest (some task)
    | some best =>
      if score task currentTime < score best currentTime then
        selectFrom currentTime rest (some task)
      else
        selectFrom currentTime rest (some best)

/-- selectAndMigrateTask: pick the minimal-score task of `fromLevel`; if one
exists, erase every entry with its id from `fromLevel` and push one copy
onto the back of `toLevel`. Returns the chosen task and the updated array. -/
def selectAndMigrateTask (taskQueues : Queues) (fromLevel toLevel : Fin 4)
    (currentTime : Int) : Option Task × Queues :=
  match selectFrom currentTime (taskQueues fromLevel) none with
  | none => (none, taskQueues)
  | some sel =>
    let afterErase : Queues := Function.update taskQueues fromLevel
      ((taskQueues fromLevel).filter (fun t => decide (t.taskId ≠ sel.taskId)))
    (some sel, Function.update afterErase toLevel (afterErase toLevel ++ [sel]))

/-- The persistent scheduler state: logical clock and the two queue arrays. -/
structure SchedState where
  g_currentTime : Int
  g_cpuTaskQueues : Queues
  g_ioTaskQueues : Queues

/-- The level a task snapshot is inserted at on Arrival / IoRequest / IoEnd:
0 for high priority, 2 for low. -/
def arrivalLevel (t : Task) : Fin 4 :=
  if t.priority = Priority.kHigh then 0 else 2

/-- Push one task onto the back of level `i`. -/
def pushLevel (queues : Queues) (i : Fin 4) (t : Task) : Queues :=
  Function.update queues i (queues i ++ [t])

/-- One iteration of the event-folding switch in `policy` (lines 98-136). -/
def foldEvent (st : SchedState) (event : Event) : SchedState :=
  match event.type with
  | EventType.kTaskArrival =>
    { st with
      g_currentTime := event.time
      g_cpuTaskQueues := pushLevel st.g_cpuTaskQueues (arrivalLevel event.task) event.task }
  | EventType.kIoRequest =>
    { g_currentTime := event.time
      g_cpuTaskQueues := removeTaskFromQueues st.g_cpuTaskQueues event.task.taskId
      g_ioTaskQueues := pushLevel st.g_ioTaskQueues (arrivalLevel event.task) event.task }
  | EventType.kIoEnd =>
    { g_currentTime := event.time
      g_ioTaskQueues := removeTaskFromQueues st.g_ioTaskQueues event.task.taskId
      g_cpuTaskQueues := pushLevel st.g_cpuTaskQueues (arrivalLevel event.task)
        { event.task with status := Status.kIoEnd } }
  | EventType.kTaskFinish =>
    { st with
      g_currentTime := event.time
      g_cpuTaskQueues := removeTaskFromQueues st.g_cpuTaskQueues event.task.taskId }
  | EventType.kTimer =>
    { st with g_currentTime := event.time }

/-- Fold a whole event batch, in order. -/
def foldEvents (st : SchedState) (events : List Event) : SchedState :=
  events.foldl foldEvent st

/-- The migration target of level `i`: `(i == N-1) ? 0 : i + 1` in the source. -/
def nextLevel (i : Fin 4) : Fin 4 :=
  if i.val = NUM_PRIORITY_QUEUES - 1 then 0 else i + 1

/-- The level scan of steps 2 and 3 of `policy`: try each level in the given
order, stopping at the first level that yields a task. -/
def scanQueues (currentTime : Int) : List (Fin 4) → Queues → Option Task × Queues
  | [], queues => (none, queues)
  | i :: rest, queues =>
    match selectAndMigrateTask queues i (nextLevel i) currentTime with
    | (some chosen, qs) => (some chosen, qs)
    | (none, qs) => scanQueues currentTime rest qs

/-- The order in which the level loops of `policy` visit the levels. -/
def levelOrder : List (Fin 4) := [0, 1, 2, 3]

/-- The policy entry point: fold the events, run the CPU scan always, run
the IO scan only when the IO device is idle, and default each Action field
to the caller-supplied occupant when no task was chosen. -/
def policy (events : List Event) (currentCpuTask currentIoTask : Int)
    (st : SchedState) : Action × SchedState :=
  let st1 := foldEvents st events
  let cpuResult := scanQueues st1.g_currentTime levelOrder st1.g_cpuTaskQueues
  let ioResult :=
    if currentIoTask = IDLE_TASK_ID then
      scanQueues st1.g_currentTime levelOrder st1.g_ioTaskQueues
    else
      (none, st1.g_ioTaskQueues)
  ({ cpuTask :=
      match cpuResult.1 with
      | some t => t.taskId
      | none => currentCpuTask
     ioTask :=
      match ioResult.1 with
      | some t => t.taskId
      | none => currentIoTask },
   { g_currentTime := st1.g_currentTime
     g_cpuTaskQueues := cpuResult.2
     g_ioTaskQueues := ioResult.2 })

/-- The initial state: clock 0, all eight levels empty. -/
def initialState : SchedState :=
  { g_currentTime := 0
    g_cpuTaskQueues := fun _ => []
    g_ioTaskQueues := fun _ => [] }

/-- Number of entries carrying the given id in one level. -/
def countIn (l : List Task) (id : Int) : Nat :=
  l.countP (fun t => decide (t.taskId = id))

/-- Number of entries carrying the given id across the four levels of one
queue array. -/
def countId (qs : Queues) (id : Int) : Nat :=
  countIn (qs 0) id + countIn (qs 1) id + countIn (qs 2) id + countIn (qs 3) id

/-- The uniqueness invariant stated in the spec data model: every id occurs
at most once across the eight levels of the two arrays together. -/
def uniqueIds (st : SchedState) : Prop :=
  ∀ id : Int, countId st.g_cpuTaskQueues id + countId st.g_ioTaskQueues id ≤ 1

/-- Well-formedness of one event against the current state, the caller
responsibility the spec describes in its error-handling section: an Arrival
only for an id queued nowhere, an IoRequest only for an id not already queued
for IO, an IoEnd only for an id not already queued for CPU. Finish and Timer
are unrestricted. -/
def eventOk (st : SchedState) (event : Event) : Bool :=
  match event.type with
  | EventType.kTaskArrival =>
    countId st.g_cpuTaskQueues event.task.taskId +
      countId st.g_ioTaskQueues event.task.taskId = 0
  | EventType.kIoRequest => countId st.g_ioTaskQueues event.task.taskId = 0
  | EventType.kIoEnd => countId st.g_cpuTaskQueues event.task.taskId = 0
  | EventType.kTaskFinish => true
  | EventType.kTimer => true

/-- Well-formedness of a whole batch: each event is well formed against the
state produced by folding the events before it. -/
def batchOk : SchedState → List Event → Bool
  | _, [] => true
  | st, e :: es => eventOk st e && batchOk (foldEvent st e) es

/-- States reachable from the initial empty state by arbitrary calls to the
policy entry point. -/
inductive ReachableAny : SchedState → Prop where
  | init : ReachableAny initialState
  | step (st : SchedState) (events : List Event) (cpu io : Int) :
      ReachableAny st → ReachableAny (policy events cpu io st).2

/-- States reachable from the initial empty state by calls to the policy
entry point whose event batches are well formed. -/
inductive ReachableWF : SchedState → Prop where
  | init : ReachableWF initialState
  | step (st : SchedState) (events : List Event) (cpu io : Int) :
      ReachableWF st → batchOk st events = true →
      ReachableWF (policy events cpu io st).2

/-- Fixture: a level-0 queue with two entries carrying id 1 (deadlines 4 and
50) around one entry with id 2 (deadline 10). -/
def exDupQueues : Queues :=
  fun i => if i = 0 then
    [⟨1, Priority.kHigh, 4, Status.kNormal⟩,
     ⟨2, Priority.kHigh, 10, Status.kNormal⟩,
     ⟨1, Priority.kHigh, 50, Status.kNormal⟩] else []

/-- Fixture: the worked example of the spec, level 0 holding task 5
(deadline 10) and task 7 (deadline 2), considered at time 5. -/
def exSpecQueues : Queues :=
  fun i => if i = 0 then
    [⟨5, Priority.kHigh, 10, Status.kNormal⟩,
     ⟨7, Priority.kHigh, 2, Status.kNormal⟩] else []

/-! Helper lemmas about the selection loop and the level scan. -/

theorem selectAndMigrateTask_fst (qs : Queues) (i j : Fin 4) (time : Int) :
    (selectAndMigrateTask qs i j time).1 = selectFrom time (qs i) none := by
  cases hsel : selectFrom time (qs i) none with
  | none => simp [selectAndMigrateTask, hsel]
  | some sel => simp [selectAndMigrateTask, hsel]

theorem selectFrom_mem (time : Int) :
    ∀ (tasks : List Task) (acc : Option Task) (sel : Task),
      selectFrom time tasks acc = some sel → sel ∈ tasks ∨ acc = some sel := by
  intro tasks
  induction tasks with
  | nil => exact fun acc sel h => Or.inr h
  | cons t rest ih =>
    intro acc sel h
    cases acc with
    | none =>
      simp only [selectFrom] at h
      rcases ih (some t) sel h with hm | he
      · exact Or.inl (List.mem_cons_of_mem _ hm)
      · obtain rfl := Option.some_inj.mp he
        exact Or.inl (List.mem_cons_self _ _)
    | some best =>
      simp only [selectFrom] at h
      split_ifs at h with hlt
      · rcases ih (some t) sel h with hm | he
        · exact Or.inl (List.mem_cons_of_mem _ hm)
        · obtain rfl := Option.some_inj.mp he
          exact Or.inl (List.mem_cons_self _ _)
      · rcases ih (some best) sel h with hm | he
        · exact Or.inl (List.mem_cons_of_mem _ hm)
        · exact Or.inr he

theorem selectAndMigrateTask_spec (qs : Queues) (i j : Fin 4) (time : Int)
    (sel : Task) (hij : i ≠ j)
    (h : (selectAndMigrateTask qs i j time).1 = some sel) :
    (selectAndMigrateTask qs i j time).2 i =
      (qs i).filter (fun t => decide (t.taskId ≠ sel.taskId)) ∧
    (selectAndMigrateTask qs i j time).2 j = qs j ++ [sel] ∧
    sel ∈ qs i ∧
    ∀ k, k ≠ i → k ≠ j → (selectAndMigrateTask qs i j time).2 k = qs k := by
  rw [selectAndMigrateTask_fst] at h
  have hmem : sel ∈ qs i := by
    rcases selectFrom_mem time (qs i) none sel h with hm | he
    · exact hm
    · cases he
  have h2 : (selectAndMigrateTask qs i j time).2 =
      Function.update
        (Function.update qs i
          ((qs i).filter (fun t => decide (t.taskId ≠ sel.taskId)))) j
        ((Function.update qs i
          ((qs i).filter (fun t => decide (t.taskId ≠ sel.taskId)))) j ++ [sel]) := by
    simp only [selectAndMigrateTask, h]
  refine ⟨?_, ?_, hmem, ?_⟩
  · rw [h2, Function.update_noteq hij, Function.update_same]
  · rw [h2, Function.update_same, Function.update_noteq (Ne.symm hij)]
  · intro k hki hkj
    rw [h2, Function.update_noteq hkj, Function.update_noteq hki]

theorem scanQueues_of_empty (time : Int) (L : List (Fin 4)) (qs : Queues)
    (h : ∀ i, qs i = []) : scanQueues time L qs = (none, qs) := by
  induction L with
  | nil => rfl
  | cons i rest ih =>
    have hsel : selectAndMigrateTask qs i (nextLevel i) time = (none, qs) := by
      unfold selectAndMigrateTask
      rw [h i]
      rfl
    simp only [scanQueues, hsel]
    exact ih

/-! Claim theorems. -/

/-- C2 counterexample: a task whose status is kIoEnd keeps that status when
selection migrates it, so the next selection pass still scores it with the
0.4 factor (score 40 at deadline 100, time 0), not the Normal factor 1.0
(which would give 100). This refutes the claim that the boost applies only
on the next selection pass after the IoEnd event. -/
theorem C2_counterexample :
    (selectAndMigrateTask
        (fun i => if i = 0 then
          [⟨1, Priority.kHigh, 100, Status.kIoEnd⟩] else ([] : List Task))
        0 1 0).2 1 = [⟨1, Priority.kHigh, 100, Status.kIoEnd⟩] ∧
    (⟨1, Priority.kHigh, 100, Status.kIoEnd⟩ : Task).status = Status.kIoEnd ∧
    score ⟨1, Priority.kHigh, 100, Status.kIoEnd⟩ 0 = 2 / 5 * 100 ∧
    REGULAR_TASK_PRIORITY_FACTOR * ((100 : ℚ) - 0) = 100 ∧
    (2 / 5 * 100 : ℚ) ≠ 100 := by
  refine ⟨by decide, rfl, ?_, ?_, ?_⟩
  · norm_num [score, IO_END_PRIORITY_BOOST_FACTOR]
  · norm_num [REGULAR_TASK_PRIORITY_FACTOR]
  · norm_num

/-- C2 (amended): the migrated copy of a selected task is appended with its
fields unchanged, so a kIoEnd task keeps its boost: on every later pass at a
time before its deadline it is still scored with the 0.4 factor. The status
is never reset by selection; only a later event overwrites the snapshot. -/
theorem C2_boost_persists (qs : Queues) (i j : Fin 4) (time : Int) (sel : Task)
    (hij : i ≠ j) (h : (selectAndMigrateTask qs i j time).1 = some sel) :
    (selectAndMigrateTask qs i j time).2 j = qs j ++ [sel] ∧
    (∀ time2 : Int, sel.status = Status.kIoEnd → time2 < sel.deadline →
      score sel time2 =
        IO_END_PRIORITY_BOOST_FACTOR * ((sel.deadline : ℚ) - (time2 : ℚ))) := by
  refine ⟨(selectAndMigrateTask_spec qs i j time sel hij h).2.1, ?_⟩
  intro time2 hst hd
  simp [score, hst, hd]

/-- C2 witness: concrete instantiation of the amended statement. -/
theorem C2_witness :
    (selectAndMigrateTask
        (fun i => if i = 0 then
          [⟨1, Priority.kHigh, 100, Status.kIoEnd⟩] else ([] : List Task))
        0 1 0).2 1 =
      (if (1 : Fin 4) = 0 then
        [⟨1, Priority.kHigh, 100, Status.kIoEnd⟩] else ([] : List Task)) ++
        [⟨1, Priority.kHigh, 100, Status.kIoEnd⟩] ∧
    score ⟨1, Priority.kHigh, 100, Status.kIoEnd⟩ 50 =
      IO_END_PRIORITY_BOOST_FACTOR * (((100 : Int) : ℚ) - ((50 : Int) : ℚ)) :=
  ⟨(C2_boost_persists
      (fun i => if i = 0 then
        [⟨1, Priority.kHigh, 100, Status.kIoEnd⟩] else ([] : List Task))
      0 1 0 ⟨1, Priority.kHigh, 100, Status.kIoEnd⟩ (by decide) (by decide)).1,
   (C2_boost_persists
      (fun i => if i = 0 then
        [⟨1, Priority.kHigh, 100, Status.kIoEnd⟩] else ([] : List Task))
      0 1 0 ⟨1, Priority.kHigh, 100, Status.kIoEnd⟩ (by decide) (by decide)).2
     50 rfl (by decide)⟩

/-- C3: folding an IoEnd event filters the event id out of all four IO
levels, appends the snapshot with status kIoEnd to the CPU level given by
the priority (0 for high, 2 for low), leaves every other CPU level
unchanged, and sets the clock to the event time. -/
theorem C3_ioEnd_folding (st : SchedState) (event : Event)
    (h : event.type = EventType.kIoEnd) :
    (∀ i, (foldEvent st event).g_ioTaskQueues i =
      (st.g_ioTaskQueues i).filter
        (fun t => decide (t.taskId ≠ event.task.taskId))) ∧
    ({ event.task with status := Status.kIoEnd } : Task).status =
      Status.kIoEnd ∧
    (foldEvent st event).g_cpuTaskQueues (arrivalLevel event.task) =
      st.g_cpuTaskQueues (arrivalLevel event.task) ++
        [{ event.task with status := Status.kIoEnd }] ∧
    arrivalLevel event.task =
      (if event.task.priority = Priority.kHigh then (0 : Fin 4) else 2) ∧
    (∀ k, k ≠ arrivalLevel event.task →
      (foldEvent st event).g_cpuTaskQueues k = st.g_cpuTaskQueues k) ∧
    (foldEvent st event).g_currentTime = event.time := by
  obtain ⟨time, ty, task⟩ := event
  have h2 : ty = EventType.kIoEnd := h
  subst h2
  refine ⟨fun i => rfl, rfl, ?_, rfl, ?_, rfl⟩
  · exact Function.update_same _ _ _
  · exact fun k hk => Function.update_noteq hk _ _

/-- C3 witness: a concrete IoEnd event on a state with one matching IO entry. -/
theorem C3_witness :
    (foldEvent
        { g_currentTime := 0
          g_cpuTaskQueues := fun _ => []
          g_ioTaskQueues := fun i =>
            if i = 1 then [⟨4, Priority.kLow, 9, Status.kNormal⟩] else [] }
        ⟨10, EventType.kIoEnd, ⟨4, Priority.kLow, 9, Status.kNormal⟩⟩).g_ioTaskQueues 1 =
      ((if (1 : Fin 4) = 1 then
          [⟨4, Priority.kLow, 9, Status.kNormal⟩] else ([] : List Task)).filter
        (fun t => decide (t.taskId ≠ 4))) ∧
    (foldEvent
        { g_currentTime := 0
          g_cpuTaskQueues := fun _ => []
          g_ioTaskQueues := fun i =>
            if i = 1 then [⟨4, Priority.kLow, 9, Status.kNormal⟩] else [] }
        ⟨10, EventType.kIoEnd, ⟨4, Priority.kLow, 9, Status.kNormal⟩⟩).g_cpuTaskQueues
      (arrivalLevel ⟨4, Priority.kLow, 9, Status.kNormal⟩) =
      [] ++ [⟨4, Priority.kLow, 9, Status.kIoEnd⟩] ∧
    (foldEvent
        { g_currentTime := 0
          g_cpuTaskQueues := fun _ => []
          g_ioTaskQueues := fun i =>
            if i = 1 then [⟨4, Priority.kLow, 9, Status.kNormal⟩] else [] }
        ⟨10, EventType.kIoEnd, ⟨4, Priority.kLow, 9, Status.kNormal⟩⟩).g_currentTime = 10 := by
  refine ⟨?_, ?_, ?_⟩
  · exact (C3_ioEnd_folding _ _ rfl).1 1
  · exact (C3_ioEnd_folding _ _ rfl).2.2.1
  · exact (C3_ioEnd_folding _ _ rfl).2.2.2.2.2

/-- C5: the migration target ring is 0 to 1 to 2 to 3 and back to 0, and a
task selected at level i is erased from level i (no entry with its id stays
there) and is present in level nextLevel i afterwards, so selection never
makes it vanish from the array. -/
theorem C5_ring_migration (qs : Queues) (i : Fin 4) (time : Int) (sel : Task)
    (h : (selectAndMigrateTask qs i (nextLevel i) time).1 = some sel) :
    (nextLevel 0 = 1 ∧ nextLevel 1 = 2 ∧ nextLevel 2 = 3 ∧ nextLevel 3 = 0) ∧
    (∀ t ∈ (selectAndMigrateTask qs i (nextLevel i) time).2 i,
      t.taskId ≠ sel.taskId) ∧
    sel ∈ (selectAndMigrateTask qs i (nextLevel i) time).2 (nextLevel i) := by
  have hne : i ≠ nextLevel i := by fin_cases i <;> decide
  obtain ⟨h1, h2, _, _⟩ :=
    selectAndMigrateTask_spec qs i (nextLevel i) time sel hne h
  refine ⟨by refine ⟨rfl, rfl, rfl, rfl⟩, ?_, ?_⟩
  · intro t ht
    rw [h1] at ht
    simpa using (List.mem_filter.mp ht).2
  · rw [h2]
    exact List.mem_append_right _ (List.mem_cons_self _ _)

/-- C5 witness: a single task at level 2 migrates to level 3 and survives. -/
theorem C5_witness :
    ((nextLevel 0 = 1 ∧ nextLevel 1 = 2 ∧ nextLevel 2 = 3 ∧ nextLevel 3 = 0)) ∧
    (⟨6, Priority.kLow, 20, Status.kNormal⟩ : Task) ∈
      (selectAndMigrateTask
        (fun i => if i = 2 then
          [⟨6, Priority.kLow, 20, Status.kNormal⟩] else ([] : List Task))
        2 (nextLevel 2) 0).2 (nextLevel 2) :=
  ⟨(C5_ring_migration
      (fun i => if i = 2 then
        [⟨6, Priority.kLow, 20, Status.kNormal⟩] else ([] : List Task))
      2 0 ⟨6, Priority.kLow, 20, Status.kNormal⟩ (by decide)).1,
   (C5_ring_migration
      (fun i => if i = 2 then
        [⟨6, Priority.kLow, 20, Status.kNormal⟩] else ([] : List Task))
      2 0 ⟨6, Priority.kLow, 20, Status.kNormal⟩ (by decide)).2.2⟩

/-- C6: when the IO device is busy (nonzero occupant id), the returned
action keeps that occupant, the IO array is exactly the one produced by
event folding (no IO selection or migration), while the CPU pass still runs:
the final CPU array is the scan result and the chosen CPU task is the scan
output, defaulting to the input occupant. -/
theorem C6_io_busy_frame (events : List Event) (cpu io : Int) (st : SchedState)
    (h : io ≠ IDLE_TASK_ID) :
    (policy events cpu io st).1.ioTask = io ∧
    (policy events cpu io st).2.g_ioTaskQueues =
      (foldEvents st events).g_ioTaskQueues ∧
    (policy events cpu io st).2.g_cpuTaskQueues =
      (scanQueues (foldEvents st events).g_currentTime levelOrder
        (foldEvents st events).g_cpuTaskQueues).2 ∧
    ((scanQueues (foldEvents st events).g_currentTime levelOrder
        (foldEvents st events).g_cpuTaskQueues).1 = none →
      (policy events cpu io st).1.cpuTask = cpu) ∧
    (∀ chosen : Task,
      (scanQueues (foldEvents st events).g_currentTime levelOrder
        (foldEvents st events).g_cpuTaskQueues).1 = some chosen →
      (policy events cpu io st).1.cpuTask = chosen.taskId) := by
  simp only [policy, if_neg h]
  refine ⟨trivial, trivial, trivial, ?_, ?_⟩
  · intro hnone
    simp only [hnone]
  · intro chosen hsome
    simp only [hsome]

/-- C6 witness: busy IO device with occupant 5, empty state. -/
theorem C6_witness :
    (policy [] 3 5 initialState).1.ioTask = 5 ∧
    (policy [] 3 5 initialState).2.g_ioTaskQueues =
      (foldEvents initialState []).g_ioTaskQueues ∧
    (policy [] 3 5 initialState).2.g_cpuTaskQueues =
      (scanQueues (foldEvents initialState []).g_currentTime levelOrder
        (foldEvents initialState []).g_cpuTaskQueues).2 ∧
    (policy [] 3 5 initialState).1.cpuTask = 3 :=
  ⟨(C6_io_busy_frame [] 3 5 initialState (by decide)).1,
   (C6_io_busy_frame [] 3 5 initialState (by decide)).2.1,
   (C6_io_busy_frame [] 3 5 initialState (by decide)).2.2.1,
   (C6_io_busy_frame [] 3 5 initialState (by decide)).2.2.2.1 (by decide)⟩

/-- C7: with all eight levels empty and no events, the policy returns the
caller-supplied occupants and leaves the clock and both arrays unchanged. -/
theorem C7_idle_invariant (cpu io : Int) (st : SchedState)
    (hcpu : ∀ i, st.g_cpuTaskQueues i = [])
    (hio : ∀ i, st.g_ioTaskQueues i = []) :
    (policy [] cpu io st).1 = { cpuTask := cpu, ioTask := io } ∧
    (policy [] cpu io st).2.g_currentTime = st.g_currentTime ∧
    (policy [] cpu io st).2.g_cpuTaskQueues = st.g_cpuTaskQueues ∧
    (policy [] cpu io st).2.g_ioTaskQueues = st.g_ioTaskQueues := by
  have hfold : foldEvents st [] = st := rfl
  have hcpu2 : scanQueues st.g_currentTime levelOrder st.g_cpuTaskQueues =
      (none, st.g_cpuTaskQueues) := scanQueues_of_empty _ _ _ hcpu
  have hio2 : scanQueues st.g_currentTime levelOrder st.g_ioTaskQueues =
      (none, st.g_ioTaskQueues) := scanQueues_of_empty _ _ _ hio
  by_cases hidle : io = IDLE_TASK_ID
  · simp only [policy, hfold, hcpu2, if_pos hidle, hio2]
    exact ⟨trivial, trivial, trivial, trivial⟩
  · simp only [policy, hfold, hcpu2, if_neg hidle]
    exact ⟨trivial, trivial, trivial, trivial⟩

/-- C7 witness: occupants 1 and 2 on the empty initial state. -/
theorem C7_witness :
    (policy [] 1 2 initialState).1 = { cpuTask := 1, ioTask := 2 } ∧
    (policy [] 1 2 initialState).2.g_currentTime =
      initialState.g_currentTime ∧
    (policy [] 1 2 initialState).2.g_cpuTaskQueues =
      initialState.g_cpuTaskQueues ∧
    (policy [] 1 2 initialState).2.g_ioTaskQueues =
      initialState.g_ioTaskQueues :=
  C7_idle_invariant 1 2 initialState (fun _ => rfl) (fun _ => rfl)

/-- C9: removing an id from a queue array is a no-op when no entry carries
the id, and applying the removal twice equals applying it once. -/
theorem C9_remove_idempotent (qs : Queues) (id : Int) :
    ((∀ i, ∀ t ∈ qs i, t.taskId ≠ id) → removeTaskFromQueues qs id = qs) ∧
    removeTaskFromQueues (removeTaskFromQueues qs id) id =
      removeTaskFromQueues qs id := by
  constructor
  · intro h
    funext i
    exact List.filter_eq_self.mpr (fun t ht => by simpa using h i t ht)
  · funext i
    simp [removeTaskFromQueues, List.filter_filter]

/-- C9 witness: removing id 7 from an array holding only id 5 entries. -/
theorem C9_witness :
    removeTaskFromQueues
      (fun _ => [⟨5, Priority.kHigh, 3, Status.kNormal⟩]) 7 =
      (fun _ => [⟨5, Priority.kHigh, 3, Status.kNormal⟩]) ∧
    removeTaskFromQueues
      (removeTaskFromQueues
        (fun _ => [⟨5, Priority.kHigh, 3, Status.kNormal⟩]) 7) 7 =
      removeTaskFromQueues
        (fun _ => [⟨5, Priority.kHigh, 3, Status.kNormal⟩]) 7 :=
  ⟨(C9_remove_idempotent
      (fun _ => [⟨5, Priority.kHigh, 3, Status.kNormal⟩]) 7).1 (by decide),
   (C9_remove_idempotent
      (fun _ => [⟨5, Priority.kHigh, 3, Status.kNormal⟩]) 7).2⟩

/-- C10: when selection at level i chooses a task, every entry of level i
carrying its id (duplicates included) is erased, exactly one copy is
appended to the target level with all fields unchanged (the appended element
is the selected task itself, an element of the source level), and untouched
levels keep their contents. -/
theorem C10_migration_shape (qs : Queues) (i j : Fin 4) (time : Int)
    (sel : Task) (hij : i ≠ j)
    (h : (selectAndMigrateTask qs i j time).1 = some sel) :
    (selectAndMigrateTask qs i j time).2 i =
      (qs i).filter (fun t => decide (t.taskId ≠ sel.taskId)) ∧
    (selectAndMigrateTask qs i j time).2 j = qs j ++ [sel] ∧
    sel ∈ qs i ∧
    ∀ k, k ≠ i → k ≠ j → (selectAndMigrateTask qs i j time).2 k = qs k :=
  selectAndMigrateTask_spec qs i j time sel hij h

/-- C10 witness: level 0 holds two entries with id 1 and one with id 2; the
id-1 task with the earlier deadline is selected, both id-1 entries leave
level 0, and one unchanged copy lands at the end of level 1. -/
theorem C10_witness :
    (selectAndMigrateTask exDupQueues 0 1 0).2 0 =
      (exDupQueues 0).filter (fun t => decide (t.taskId ≠ 1)) ∧
    (selectAndMigrateTask exDupQueues 0 1 0).2 2 = exDupQueues 2 := by
  have s1 : score ⟨1, Priority.kHigh, 4, Status.kNormal⟩ 0 = 4 := by
    unfold score
    rw [if_pos (by decide), if_neg (by decide)]
    norm_num [REGULAR_TASK_PRIORITY_FACTOR]
  have s2 : score ⟨2, Priority.kHigh, 10, Status.kNormal⟩ 0 = 10 := by
    unfold score
    rw [if_pos (by decide), if_neg (by decide)]
    norm_num [REGULAR_TASK_PRIORITY_FACTOR]
  have s3 : score ⟨1, Priority.kHigh, 50, Status.kNormal⟩ 0 = 50 := by
    unfold score
    rw [if_pos (by decide), if_neg (by decide)]
    norm_num [REGULAR_TASK_PRIORITY_FACTOR]
  have hq : exDupQueues 0 =
      [⟨1, Priority.kHigh, 4, Status.kNormal⟩,
       ⟨2, Priority.kHigh, 10, Status.kNormal⟩,
       ⟨1, Priority.kHigh, 50, Status.kNormal⟩] := rfl
  have hsel : (selectAndMigrateTask exDupQueues 0 1 0).1 =
      some ⟨1, Priority.kHigh, 4, Status.kNormal⟩ := by
    rw [selectAndMigrateTask_fst, hq]
    simp only [selectFrom, s1, s2, s3]
    norm_num
  exact ⟨(C10_migration_shape exDupQueues 0 1 0
      ⟨1, Priority.kHigh, 4, Status.kNormal⟩ (by decide) hsel).1,
    (C10_migration_shape exDupQueues 0 1 0
      ⟨1, Priority.kHigh, 4, Status.kNormal⟩ (by decide) hsel).2.2.2
      2 (by decide) (by decide)⟩

/-- C1 counterexample: at time 0 an on-time task with deadline 200001 scores
200001 while an overdue task with deadline 0 scores 100000, so the overdue
task does not score above every on-time task; and among two overdue tasks
the one with deadline closest to the current time (deadline -1 versus -5)
scores strictly higher, not lowest. -/
theorem C1_counterexample :
    (⟨1, Priority.kHigh, 0, Status.kNormal⟩ : Task).deadline ≤ 0 ∧
    (0 : Int) < (⟨2, Priority.kHigh, 200001, Status.kNormal⟩ : Task).deadline ∧
    score ⟨1, Priority.kHigh, 0, Status.kNormal⟩ 0 <
      score ⟨2, Priority.kHigh, 200001, Status.kNormal⟩ 0 ∧
    (⟨3, Priority.kHigh, -1, Status.kNormal⟩ : Task).deadline ≤ 0 ∧
    (⟨4, Priority.kHigh, -5, Status.kNormal⟩ : Task).deadline ≤ 0 ∧
    score ⟨4, Priority.kHigh, -5, Status.kNormal⟩ 0 <
      score ⟨3, Priority.kHigh, -1, Status.kNormal⟩ 0 := by
  have h1 : score ⟨1, Priority.kHigh, 0, Status.kNormal⟩ 0 = 100000 := by
    unfold score
    rw [if_neg (by decide)]
    norm_num [OVERDUE_PENALTY_SCORE]
  have h2 : score ⟨2, Priority.kHigh, 200001, Status.kNormal⟩ 0 = 200001 := by
    unfold score
    rw [if_pos (by decide), if_neg (by decide)]
    norm_num [REGULAR_TASK_PRIORITY_FACTOR]
  have h3 : score ⟨3, Priority.kHigh, -1, Status.kNormal⟩ 0 = 99999 := by
    unfold score
    rw [if_neg (by decide)]
    norm_num [OVERDUE_PENALTY_SCORE]
  have h4 : score ⟨4, Priority.kHigh, -5, Status.kNormal⟩ 0 = 99995 := by
    unfold score
    rw [if_neg (by decide)]
    norm_num [OVERDUE_PENALTY_SCORE]
  refine ⟨by decide, by decide, ?_, by decide, by decide, ?_⟩
  · rw [h1, h2]; norm_num
  · rw [h3, h4]; norm_num

/-- C1 (amended): an overdue task scores strictly above an on-time task
whenever their deadlines are less than 100000 apart (the separating constant
is not a hard bound, so some restriction is necessary); and among overdue
tasks the one with the earliest deadline, that is the most overdue one,
scores lowest. -/
theorem C1_overdue_separation (a b c d : Task) (now : Int) :
    (a.deadline ≤ now → now < b.deadline → b.deadline - a.deadline < 100000 →
      score b now < score a now) ∧
    (c.deadline ≤ now → d.deadline ≤ now → c.deadline < d.deadline →
      score c now < score d now) := by
  constructor
  · intro ha hb hsep
    have ha2 : ((a.deadline : ℚ)) ≤ (now : ℚ) := by exact_mod_cast ha
    have hb2 : ((now : ℚ)) < (b.deadline : ℚ) := by exact_mod_cast hb
    have hsep2 : ((b.deadline : ℚ)) - (a.deadline : ℚ) < 100000 := by
      have : ((b.deadline - a.deadline : Int) : ℚ) < ((100000 : Int) : ℚ) := by
        exact_mod_cast hsep
      push_cast at this
      linarith
    unfold score
    rw [if_neg (not_lt.mpr ha), if_pos hb]
    by_cases hst : b.status = Status.kIoEnd
    · rw [if_pos hst]
      unfold IO_END_PRIORITY_BOOST_FACTOR OVERDUE_PENALTY_SCORE
      linarith
    · rw [if_neg hst]
      unfold REGULAR_TASK_PRIORITY_FACTOR OVERDUE_PENALTY_SCORE
      linarith
  · intro hc hd hlt
    have hlt2 : ((c.deadline : ℚ)) < (d.deadline : ℚ) := by exact_mod_cast hlt
    unfold score
    rw [if_neg (not_lt.mpr hc), if_neg (not_lt.mpr hd)]
    unfold OVERDUE_PENALTY_SCORE
    linarith

/-- C1 witness: deadlines 0 and 5 at time 0 for the separation part, and
overdue deadlines -5 and -1 for the ordering part. -/
theorem C1_witness :
    score ⟨2, Priority.kHigh, 5, Status.kNormal⟩ 0 <
      score ⟨1, Priority.kHigh, 0, Status.kNormal⟩ 0 ∧
    score ⟨3, Priority.kHigh, -5, Status.kNormal⟩ 0 <
      score ⟨4, Priority.kHigh, -1, Status.kNormal⟩ 0 :=
  ⟨(C1_overdue_separation ⟨1, Priority.kHigh, 0, Status.kNormal⟩
      ⟨2, Priority.kHigh, 5, Status.kNormal⟩
      ⟨3, Priority.kHigh, -5, Status.kNormal⟩
      ⟨4, Priority.kHigh, -1, Status.kNormal⟩ 0).1
    (by decide) (by decide) (by decide),
   (C1_overdue_separation ⟨1, Priority.kHigh, 0, Status.kNormal⟩
      ⟨2, Priority.kHigh, 5, Status.kNormal⟩
      ⟨3, Priority.kHigh, -5, Status.kNormal⟩
      ⟨4, Priority.kHigh, -1, Status.kNormal⟩ 0).2
    (by decide) (by decide) (by decide)⟩

theorem selectFrom_min_split (time : Int) :
    ∀ (tasks : List Task) (b : Task),
      (selectFrom time tasks (some b) = some b ∧
        ∀ t ∈ tasks, score b time ≤ score t time) ∨
      (∃ r l₁ l₂, selectFrom time tasks (some b) = some r ∧
        tasks = l₁ ++ r :: l₂ ∧ score r time < score b time ∧
        (∀ t ∈ l₁, score r time < score t time) ∧
        (∀ t ∈ l₂, score r time ≤ score t time)) := by
  intro tasks
  induction tasks with
  | nil => exact fun b => Or.inl ⟨rfl, by simp⟩
  | cons t rest ih =>
    intro b
    by_cases hlt : score t time < score b time
    · have hstep : selectFrom time (t :: rest) (some b) =
          selectFrom time rest (some t) := by
        simp only [selectFrom, if_pos hlt]
      rcases ih t with ⟨heq, hall⟩ | ⟨r, l₁, l₂, heq, hsplit, hr, h1, h2⟩
      · exact Or.inr ⟨t, [], rest, by rw [hstep, heq], rfl, hlt, by simp, hall⟩
      · refine Or.inr ⟨r, t :: l₁, l₂, by rw [hstep, heq], by rw [hsplit, List.cons_append], hr.trans hlt, ?_, h2⟩
        intro u hu
        rcases List.mem_cons.mp hu with rfl | hu2
        · exact hr
        · exact h1 u hu2
    · have hstep : selectFrom time (t :: rest) (some b) =
          selectFrom time rest (some b) := by
        simp only [selectFrom, if_neg hlt]
      have hle : score b time ≤ score t time := not_lt.mp hlt
      rcases ih b with ⟨heq, hall⟩ | ⟨r, l₁, l₂, heq, hsplit, hr, h1, h2⟩
      · refine Or.inl ⟨by rw [hstep, heq], ?_⟩
        intro u hu
        rcases List.mem_cons.mp hu with rfl | hu2
        · exact hle
        · exact hall u hu2
      · refine Or.inr ⟨r, t :: l₁, l₂, by rw [hstep, heq], by rw [hsplit, List.cons_append], hr, ?_, h2⟩
        intro u hu
        rcases List.mem_cons.mp hu with rfl | hu2
        · exact lt_of_lt_of_le hr hle
        · exact h1 u hu2

theorem selectFrom_first_min (time : Int) (tasks : List Task) (h : tasks ≠ []) :
    ∃ sel l₁ l₂, selectFrom time tasks none = some sel ∧
      tasks = l₁ ++ sel :: l₂ ∧
      (∀ t ∈ l₁, score sel time < score t time) ∧
      (∀ t ∈ l₂, score sel time ≤ score t time) := by
  cases tasks with
  | nil => exact absurd rfl h
  | cons t rest =>
    have hstep : selectFrom time (t :: rest) none =
        selectFrom time rest (some t) := by
      simp only [selectFrom]
    rcases selectFrom_min_split time rest t with ⟨heq, hall⟩ |
      ⟨r, l₁, l₂, heq, hsplit, hr, h1, h2⟩
    · exact ⟨t, [], rest, by rw [hstep, heq], rfl, by simp, hall⟩
    · refine ⟨r, t :: l₁, l₂, by rw [hstep, heq], by rw [hsplit, List.cons_append], ?_, h2⟩
      intro u hu
      rcases List.mem_cons.mp hu with rfl | hu2
      · exact hr
      · exact h1 u hu2

theorem mem_left_of_split_without {α : Type} (sel : α) :
    ∀ (p₁ : List α) (p₂ l₁ l₂ : List α),
      p₁ ++ p₂ = l₁ ++ sel :: l₂ → sel ∉ p₁ → ∀ t ∈ p₁, t ∈ l₁ := by
  intro p₁
  induction p₁ with
  | nil => intro p₂ l₁ l₂ _ _ t ht; cases ht
  | cons a p ih =>
    intro p₂ l₁ l₂ heq hnot t ht
    cases l₁ with
    | nil =>
      simp only [List.nil_append, List.cons_append, List.cons.injEq] at heq
      exact absurd (heq.1 ▸ List.mem_cons_self a p) hnot
    | cons b l₁t =>
      simp only [List.cons_append, List.cons.injEq] at heq
      rcases List.mem_cons.mp ht with rfl | ht2
      · exact heq.1 ▸ List.mem_cons_self b l₁t
      · exact List.mem_cons_of_mem b
          (ih p₂ l₁t l₂ heq.2 (fun hm => hnot (List.mem_cons_of_mem a hm)) t ht2)

/-- C4: a non-empty level always yields a selected task; the selected task
is a member of the level attaining the minimal score, and every split of the
level into a prefix not containing the selected task and a remainder has the
whole prefix scoring strictly above it, so the first task attaining the
minimum is the one selected. -/
theorem C4_min_selection (qs : Queues) (i j : Fin 4) (time : Int)
    (h : qs i ≠ []) :
    (selectAndMigrateTask qs i j time).1 ≠ none ∧
    ∀ sel, (selectAndMigrateTask qs i j time).1 = some sel →
      sel ∈ qs i ∧
      (∀ t ∈ qs i, score sel time ≤ score t time) ∧
      (∀ p₁ p₂, qs i = p₁ ++ p₂ → sel ∉ p₁ →
        ∀ t ∈ p₁, score sel time < score t time) := by
  obtain ⟨sel0, l₁, l₂, heq, hsplit, h1, h2⟩ := selectFrom_first_min time (qs i) h
  have hfst : (selectAndMigrateTask qs i j time).1 = some sel0 := by
    rw [selectAndMigrateTask_fst, heq]
  constructor
  · rw [hfst]; exact Option.some_ne_none _
  · intro sel hsel
    obtain rfl : sel0 = sel := Option.some_inj.mp (hfst ▸ hsel)
    refine ⟨?_, ?_, ?_⟩
    · rw [hsplit]
      exact List.mem_append_right _ (List.mem_cons_self _ _)
    · intro t ht
      rw [hsplit] at ht
      rcases List.mem_append.mp ht with h₁ | h₂
      · exact le_of_lt (h1 t h₁)
      · rcases List.mem_cons.mp h₂ with rfl | h₃
        · exact le_refl _
        · exact h2 t h₃
    · intro p₁ p₂ hp hnot t ht
      have hsub : t ∈ l₁ :=
        mem_left_of_split_without sel0 p₁ p₂ l₁ l₂ (hp.symm.trans hsplit) hnot t ht
      exact h1 t hsub

/-- C4 witness: the spec worked example, level 0 holding task 5 (on time,
score 5) and task 7 (overdue, score 99997) at time 5: a task is selected,
it is task 5, it belongs to the level and its score is minimal. -/
theorem C4_witness :
    (selectAndMigrateTask exSpecQueues 0 1 5).1 ≠ none ∧
    (⟨5, Priority.kHigh, 10, Status.kNormal⟩ : Task) ∈ exSpecQueues 0 ∧
    score ⟨5, Priority.kHigh, 10, Status.kNormal⟩ 5 ≤
      score ⟨7, Priority.kHigh, 2, Status.kNormal⟩ 5 := by
  have s5 : score ⟨5, Priority.kHigh, 10, Status.kNormal⟩ 5 = 5 := by
    unfold score
    rw [if_pos (by decide), if_neg (by decide)]
    norm_num [REGULAR_TASK_PRIORITY_FACTOR]
  have s7 : score ⟨7, Priority.kHigh, 2, Status.kNormal⟩ 5 = 99997 := by
    unfold score
    rw [if_neg (by decide)]
    norm_num [OVERDUE_PENALTY_SCORE]
  have hq : exSpecQueues 0 =
      [⟨5, Priority.kHigh, 10, Status.kNormal⟩,
       ⟨7, Priority.kHigh, 2, Status.kNormal⟩] := rfl
  have hsel : (selectAndMigrateTask exSpecQueues 0 1 5).1 =
      some ⟨5, Priority.kHigh, 10, Status.kNormal⟩ := by
    rw [selectAndMigrateTask_fst, hq]
    simp only [selectFrom, s5, s7]
    norm_num
  have h := C4_min_selection exSpecQueues 0 1 5 (by decide)
  exact ⟨h.1, (h.2 _ hsel).1,
    (h.2 _ hsel).2.1 ⟨7, Priority.kHigh, 2, Status.kNormal⟩ (by decide)⟩

/-! Counting lemmas for the uniqueness invariant. -/

theorem fin4_cases : ∀ i : Fin 4, i = 0 ∨ i = 1 ∨ i = 2 ∨ i = 3 := by decide

theorem nextLevel_ne : ∀ i : Fin 4, i ≠ nextLevel i := by decide

theorem countIn_append (l₁ l₂ : List Task) (id : Int) :
    countIn (l₁ ++ l₂) id = countIn l₁ id + countIn l₂ id := by
  unfold countIn
  rw [List.countP_append]

theorem countIn_cons (t : Task) (rest : List Task) (id : Int) :
    countIn (t :: rest) id =
      countIn rest id + (if t.taskId = id then 1 else 0) := by
  unfold countIn
  rw [List.countP_cons]
  by_cases h : t.taskId = id <;> simp [h]

theorem countIn_singleton (t : Task) (id : Int) :
    countIn [t] id = if t.taskId = id then 1 else 0 := by
  unfold countIn
  by_cases h : t.taskId = id <;> simp [h, List.countP_cons]

theorem countIn_filter_ne (l : List Task) (x id : Int) :
    countIn (List.filter (fun t => decide (t.taskId ≠ x)) l) id =
      if id = x then 0 else countIn l id := by
  induction l with
  | nil => simp [countIn]
  | cons t rest ih =>
    rw [List.filter_cons]
    by_cases htx : t.taskId = x
    · rw [if_neg (by simp [htx]), ih]
      by_cases hid : id = x
      · simp [hid]
      · rw [if_neg hid, if_neg hid, countIn_cons,
          if_neg (fun hh => hid (hh.symm.trans htx)), Nat.add_zero]
    · rw [if_pos (by simp [htx]), countIn_cons, ih, countIn_cons]
      by_cases hid : id = x
      · rw [if_pos hid, if_pos hid,
          if_neg (fun hh => htx (hh.trans hid)), Nat.add_zero]
      · rw [if_neg hid, if_neg hid]

theorem countId_update (qs : Queues) (i : Fin 4) (v : List Task) (id : Int) :
    countId (Function.update qs i v) id + countIn (qs i) id =
      countId qs id + countIn v id := by
  rcases fin4_cases i with rfl | rfl | rfl | rfl <;>
    · simp only [countId, Function.update_apply]
      simp
      omega

theorem countId_pushLevel (qs : Queues) (i : Fin 4) (t : Task) (id : Int) :
    countId (pushLevel qs i t) id = countId qs id + countIn [t] id := by
  have h := countId_update qs i (qs i ++ [t]) id
  rw [countIn_append] at h
  unfold pushLevel
  omega

theorem countId_remove (qs : Queues) (x id : Int) :
    countId (removeTaskFromQueues qs x) id =
      if id = x then 0 else countId qs id := by
  unfold countId
  simp only [removeTaskFromQueues]
  rw [countIn_filter_ne, countIn_filter_ne, countIn_filter_ne, countIn_filter_ne]
  by_cases hid : id = x
  · simp [hid]
  · simp [hid]

theorem selectAndMigrateTask_none (qs : Queues) (i j : Fin 4) (time : Int)
    (h : (selectAndMigrateTask qs i j time).1 = none) :
    (selectAndMigrateTask qs i j time).2 = qs := by
  cases hsel : selectFrom time (qs i) none with
  | none => simp [selectAndMigrateTask, hsel]
  | some sel => simp [selectAndMigrateTask, hsel] at h

theorem countId_selectAndMigrateTask_le (qs : Queues) (i j : Fin 4)
    (time : Int) (id : Int) :
    countId ((selectAndMigrateTask qs i j time).2) id ≤ countId qs id := by
  cases hsel : selectFrom time (qs i) none with
  | none =>
    have h2 : (selectAndMigrateTask qs i j time).2 = qs := by
      simp [selectAndMigrateTask, hsel]
    rw [h2]
  | some sel =>
    have hmem : sel ∈ qs i := by
      rcases selectFrom_mem time (qs i) none sel hsel with hm | he
      · exact hm
      · cases he
    have heq2 : (selectAndMigrateTask qs i j time).2 =
        pushLevel (Function.update qs i
          ((qs i).filter (fun t => decide (t.taskId ≠ sel.taskId)))) j sel := by
      simp only [selectAndMigrateTask, hsel]
      rfl
    rw [heq2, countId_pushLevel, countIn_singleton]
    have hupd := countId_update qs i
      ((qs i).filter (fun t => decide (t.taskId ≠ sel.taskId))) id
    rw [countIn_filter_ne] at hupd
    by_cases hid : id = sel.taskId
    · have hpos : 0 < countIn (qs i) id := by
        unfold countIn
        exact List.countP_pos_iff.mpr ⟨sel, hmem, by simp [hid]⟩
      rw [if_pos hid] at hupd
      rw [if_pos hid.symm]
      omega
    · rw [if_neg hid] at hupd
      rw [if_neg (fun hh => hid hh.symm)]
      omega

theorem countId_scanQueues_le (time : Int) (id : Int) :
    ∀ (L : List (Fin 4)) (qs : Queues),
      countId ((scanQueues time L qs).2) id ≤ countId qs id := by
  intro L
  induction L with
  | nil => exact fun qs => le_refl _
  | cons i rest ih =>
    intro qs
    have hle := countId_selectAndMigrateTask_le qs i (nextLevel i) time id
    cases hp : selectAndMigrateTask qs i (nextLevel i) time with
    | mk fst snd =>
      rw [hp] at hle
      cases fst with
      | some chosen =>
        have hscan : scanQueues time (i :: rest) qs = (some chosen, snd) := by
          simp [scanQueues, hp]
        rw [hscan]
        exact hle
      | none =>
        have hscan : scanQueues time (i :: rest) qs =
            scanQueues time rest snd := by
          simp [scanQueues, hp]
        rw [hscan]
        exact le_trans (ih snd) hle

/-! Preservation of the uniqueness invariant. -/

theorem uniqueIds_foldEvent (st : SchedState) (event : Event)
    (hinv : uniqueIds st) (hok : eventOk st event = true) :
    uniqueIds (foldEvent st event) := by
  intro id
  obtain ⟨time, ty, task⟩ := event
  have hst := hinv id
  cases ty with
  | kTaskArrival =>
    have hok2 : countId st.g_cpuTaskQueues task.taskId +
        countId st.g_ioTaskQueues task.taskId = 0 := by
      simpa [eventOk] using hok
    have hpush := countId_pushLevel st.g_cpuTaskQueues (arrivalLevel task) task id
    rw [countIn_singleton] at hpush
    show countId (pushLevel st.g_cpuTaskQueues (arrivalLevel task) task) id +
      countId st.g_ioTaskQueues id ≤ 1
    by_cases hid : task.taskId = id
    · rw [if_pos hid] at hpush
      rw [hid] at hok2
      omega
    · rw [if_neg hid] at hpush
      omega
  | kIoRequest =>
    have hok2 : countId st.g_ioTaskQueues task.taskId = 0 := by
      simpa [eventOk] using hok
    have hrm := countId_remove st.g_cpuTaskQueues task.taskId id
    have hpush := countId_pushLevel st.g_ioTaskQueues (arrivalLevel task) task id
    rw [countIn_singleton] at hpush
    show countId (removeTaskFromQueues st.g_cpuTaskQueues task.taskId) id +
      countId (pushLevel st.g_ioTaskQueues (arrivalLevel task) task) id ≤ 1
    by_cases hid : id = task.taskId
    · rw [if_pos hid] at hrm
      rw [if_pos hid.symm] at hpush
      rw [← hid] at hok2
      omega
    · rw [if_neg hid] at hrm
      rw [if_neg (fun hh => hid hh.symm)] at hpush
      omega
  | kIoEnd =>
    have hok2 : countId st.g_cpuTaskQueues task.taskId = 0 := by
      simpa [eventOk] using hok
    have hrm := countId_remove st.g_ioTaskQueues task.taskId id
    have hpush := countId_pushLevel st.g_cpuTaskQueues (arrivalLevel task)
      { task with status := Status.kIoEnd } id
    rw [countIn_singleton] at hpush
    show countId (pushLevel st.g_cpuTaskQueues (arrivalLevel task)
        { task with status := Status.kIoEnd }) id +
      countId (removeTaskFromQueues st.g_ioTaskQueues task.taskId) id ≤ 1
    by_cases hid : id = task.taskId
    · rw [if_pos hid] at hrm
      rw [if_pos hid.symm] at hpush
      rw [← hid] at hok2
      omega
    · rw [if_neg hid] at hrm
      rw [if_neg (fun hh => hid hh.symm)] at hpush
      omega
  | kTaskFinish =>
    have hrm := countId_remove st.g_cpuTaskQueues task.taskId id
    show countId (removeTaskFromQueues st.g_cpuTaskQueues task.taskId) id +
      countId st.g_ioTaskQueues id ≤ 1
    by_cases hid : id = task.taskId
    · rw [if_pos hid] at hrm
      omega
    · rw [if_neg hid] at hrm
      omega
  | kTimer => exact hst

theorem uniqueIds_foldEvents :
    ∀ (events : List Event) (st : SchedState),
      uniqueIds st → batchOk st events = true →
      uniqueIds (foldEvents st events) := by
  intro events
  induction events with
  | nil => exact fun st h _ => h
  | cons e es ih =>
    intro st h hok
    have h1 : eventOk st e = true ∧ batchOk (foldEvent st e) es = true := by
      simpa [batchOk, Bool.and_eq_true] using hok
    have h2 : foldEvents st (e :: es) = foldEvents (foldEvent st e) es := rfl
    rw [h2]
    exact ih (foldEvent st e) (uniqueIds_foldEvent st e h h1.1) h1.2

theorem uniqueIds_policy (events : List Event) (cpu io : Int)
    (st : SchedState) (hinv : uniqueIds st) (hok : batchOk st events = true) :
    uniqueIds (policy events cpu io st).2 := by
  intro id
  have h1 := uniqueIds_foldEvents events st hinv hok id
  have hcpu_le : countId (policy events cpu io st).2.g_cpuTaskQueues id ≤
      countId (foldEvents st events).g_cpuTaskQueues id := by
    have h2 : (policy events cpu io st).2.g_cpuTaskQueues =
        (scanQueues (foldEvents st events).g_currentTime levelOrder
          (foldEvents st events).g_cpuTaskQueues).2 := rfl
    rw [h2]
    exact countId_scanQueues_le _ id levelOrder _
  have hio_le : countId (policy events cpu io st).2.g_ioTaskQueues id ≤
      countId (foldEvents st events).g_ioTaskQueues id := by
    by_cases hidle : io = IDLE_TASK_ID
    · have h2 : (policy events cpu io st).2.g_ioTaskQueues =
          (scanQueues (foldEvents st events).g_currentTime levelOrder
            (foldEvents st events).g_ioTaskQueues).2 := by
        simp only [policy, if_pos hidle]
      rw [h2]
      exact countId_scanQueues_le _ id levelOrder _
    · have h2 : (policy events cpu io st).2.g_ioTaskQueues =
          (foldEvents st events).g_ioTaskQueues := by
        simp only [policy, if_neg hidle]
      rw [h2]
  omega

/-- C8 counterexample: a single policy call delivering two IoRequest events
for task 1 while the IO device is busy (occupant 5) produces a reachable
state whose IO array holds two entries with id 1, violating the claimed
uniqueness invariant for arbitrary calls to the policy entry point. -/
theorem C8_counterexample :
    ReachableAny (policy
      [⟨3, EventType.kIoRequest, ⟨1, Priority.kHigh, 10, Status.kNormal⟩⟩,
       ⟨3, EventType.kIoRequest, ⟨1, Priority.kHigh, 10, Status.kNormal⟩⟩]
      0 5 initialState).2 ∧
    ¬ uniqueIds (policy
      [⟨3, EventType.kIoRequest, ⟨1, Priority.kHigh, 10, Status.kNormal⟩⟩,
       ⟨3, EventType.kIoRequest, ⟨1, Priority.kHigh, 10, Status.kNormal⟩⟩]
      0 5 initialState).2 := by
  constructor
  · exact ReachableAny.step initialState _ 0 5 ReachableAny.init
  · intro h
    have h1 := h 1
    revert h1
    decide

/-- C8 (amended): in every state reachable from the initial empty state by
policy calls whose event batches are well formed (no Arrival of an id that
is already queued, no IoRequest of an id already queued for IO, no IoEnd of
an id already queued for CPU), every taskId occurs at most once across the
eight levels of the two arrays. -/
theorem C8_unique_ids (st : SchedState) (h : ReachableWF st) : uniqueIds st := by
  induction h with
  | init => intro id; exact Nat.zero_le 1
  | step st events cpu io hreach hok ih =>
    exact uniqueIds_policy events cpu io st ih hok

/-- C8 witness: the invariant holds for the state after one well-formed
Arrival call from the initial state. -/
theorem C8_witness :
    uniqueIds (policy
      [⟨7, EventType.kTaskArrival, ⟨2, Priority.kHigh, 9, Status.kNormal⟩⟩]
      0 0 initialState).2 :=
  C8_unique_ids _
    (ReachableWF.step initialState
      [⟨7, EventType.kTaskArrival, ⟨2, Priority.kHigh, 9, Status.kNormal⟩⟩]
      0 0 ReachableWF.init (by decide))

end Schedlab
